import Mathlib

/- Shallow embedding of scripts/generate_source.go from the jupiter-registry
   repository.

   The program is a sequential orchestration script.  All of its external
   effects (filesystem stat and chmod, subprocess execution, environment
   variables, file reading, YAML parsing) are modelled by a `World` record of
   oracles, and every subprocess invocation performed through `runCommand` /
   `runCommandInDir` is recorded as an `Event`, so theorems can speak about
   which external commands were executed and in which order.

   Pure path manipulation (`filepath.Join`, `filepath.Clean`, `filepath.Base`
   on a slash-separated platform) is embedded faithfully as executable
   functions on character lists. -/

/-- Result of an `os.Stat` call, distinguishing the three cases the Go code
inspects: `err == nil`, `os.IsNotExist(err)`, and any other error. -/
inductive StatRes
  | ok
  | notExist
  | otherErr
  deriving DecidableEq

/-- One external process invocation: optional working directory (set by
`runCommandInDir`, empty for `runCommand`), command name, and arguments. -/
structure Event where
  dir : Option String
  name : String
  args : List String
  deriving DecidableEq

/-- Views a character list as slash-separated path elements, the way
`filepath.Clean` walks a path.  `splitSlash [] = [[]]`: the empty string is a
single empty element. -/
def splitSlash : List Char → List (List Char)
  | [] => [[]]
  | c :: rest =>
    if c = '/' then [] :: splitSlash rest
    else
      match splitSlash rest with
      | [] => [[c]]
      | s :: ss => (c :: s) :: ss

/-- Whether a path begins with the path separator (`os.IsPathSeparator(path[0])`
after the emptiness check in `filepath.Clean`). -/
def isRooted : List Char → Bool
  | '/' :: _ => true
  | _ => false

/-- One step of the `filepath.Clean` element loop, acting on a stack of output
elements (head = most recent).  Implements Clean's four rewrite rules: drop
empty elements (multiple separators), drop `.` elements, let `..` erase the
preceding non-`..` element (or be dropped at the root of a rooted path, or be
kept at the front of a relative path), and keep every other element. -/
def stepStack (rooted : Bool) (st : List (List Char)) (seg : List Char) : List (List Char) :=
  if seg = [] ∨ seg = ['.'] then st
  else if seg = ['.', '.'] then
    match st with
    | [] => if rooted then [] else [['.', '.']]
    | top :: st' => if top = ['.', '.'] then seg :: st else st'
  else seg :: st

/-- Runs the `filepath.Clean` element loop over a list of elements. -/
def cleanStack (rooted : Bool) (st : List (List Char)) (segs : List (List Char)) : List (List Char) :=
  segs.foldl (stepStack rooted) st

/-- Joins path elements with a separator character (`strings.Join` on rune
lists). -/
def joinChars (sep : Char) : List (List Char) → List Char
  | [] => []
  | [s] => s
  | s :: rest => s ++ sep :: joinChars sep rest

/-- The joined output of the `filepath.Clean` element loop, before re-rooting
and the empty-output defaults. -/
def cleanCore (rooted : Bool) (p : List Char) : List Char :=
  joinChars '/' (cleanStack rooted [] (splitSlash p)).reverse

/-- Character-level `filepath.Clean` for a slash-separated platform: empty
input becomes `.`, otherwise the element loop runs and the result is re-rooted
or defaulted to `.` / `/` exactly as in the Go implementation. -/
def cleanChars (p : List Char) : List Char :=
  if p = [] then ['.']
  else if isRooted p then
    (if cleanCore true p = [] then ['/'] else '/' :: cleanCore true p)
  else
    (if cleanCore false p = [] then ['.'] else cleanCore false p)

/-- The `filepath.Clean` of the Go standard library, on Lean strings. -/
def clean (p : String) : String := String.mk (cleanChars p.data)

/-- The two-argument `filepath.Join`: the first non-empty element onward is
joined with a separator and cleaned; all-empty input gives the empty string. -/
def join2 (a b : String) : String :=
  if a = "" then (if b = "" then "" else clean b)
  else clean (a ++ "/" ++ b)

/-- The last path element after stripping trailing separators: working on the
reversed character list, trailing separators are dropped and then characters
are taken up to the next separator. -/
def baseStripped (p : List Char) : List Char :=
  ((p.reverse.dropWhile (fun c => c == '/')).takeWhile (fun c => !(c == '/'))).reverse

/-- Character-level `filepath.Base`: empty input gives `.`, trailing
separators are stripped, everything up to the last separator is discarded, and
an all-separator path gives `/`. -/
def baseChars (p : List Char) : List Char :=
  if p = [] then ['.']
  else if baseStripped p = [] then ['/']
  else baseStripped p

/-- The `filepath.Base` of the Go standard library, on Lean strings. -/
def goBase (p : String) : String := String.mk (baseChars p.data)

/-- The nested `metadata` record of the YAML descriptor. -/
structure Metadata where
  ProgrammingLanguage : String
  Framework : String
  Module : String
  deriving DecidableEq

/-- SourceConfig represents the full YAML structure. -/
structure SourceConfig where
  SourceID : String
  Name : String
  Members : List String
  Metadata : Metadata
  deriving DecidableEq

/-- GeneratorSourceDto: the DTO, which carries no `source_id` field. -/
structure GeneratorSourceDto where
  AppName : String
  ProgrammingLanguage : String
  Framework : String
  Module : String
  Members : List String
  deriving DecidableEq

/-- The DTO construction performed inline in `main` (lines 68-74 of the Go
source): a field-by-field projection of the parsed config. -/
def toDto (config : SourceConfig) : GeneratorSourceDto :=
  { AppName := config.Name
    ProgrammingLanguage := config.Metadata.ProgrammingLanguage
    Framework := config.Metadata.Framework
    Module := config.Metadata.Module
    Members := config.Members }

/-- Oracles for every external effect the script performs.  `run dir name args`
is the outcome of `exec.Command(name, args...).Run()` with optional working
directory `dir` (`none` = the process's own working directory): `none` means
success, `some e` carries the error text.  `env` is the process environment
(`none` = variable unset).  `stat` and `chmod` model `os.Stat` / `os.Chmod`,
`readFile` models `os.ReadFile`, and `parseYaml` models `yaml.Unmarshal`. -/
structure World where
  goos : String
  goarch : String
  stat : String → StatRes
  chmod : String → Option String
  run : Option String → String → List String → Option String
  env : String → Option String
  readFile : String → Except String String
  parseYaml : String → Except String SourceConfig

/-- Go's `os.Getenv`: the value of the variable, or the empty string when the
variable is unset. -/
def goGetenv (env : String → Option String) (k : String) : String :=
  (env k).getD ""

/-- Token lookup in `pushToRepo`: `GH_TOKEN`, falling back to `GITHUB_TOKEN`
when the first read is empty. -/
def resolveToken (env : String → Option String) : String :=
  if goGetenv env "GH_TOKEN" = "" then goGetenv env "GITHUB_TOKEN"
  else goGetenv env "GH_TOKEN"

/-- Remote URL construction in `pushToRepo`: the token is embedded when
non-empty, otherwise the plain URL is used.  The owner is fixed. -/
def buildRepoURL (env : String → Option String) (appName : String) : String :=
  if resolveToken env ≠ "" then
    "https://x-access-token:" ++ resolveToken env ++ "@github.com/tqhuy-dev/" ++ appName ++ ".git"
  else
    "https://github.com/tqhuy-dev/" ++ appName ++ ".git"

/-- `strings.Join` with an arbitrary separator string. -/
def goStringsJoin (sep : String) : List String → String
  | [] => ""
  | [s] => s
  | s :: rest => s ++ sep ++ goStringsJoin sep rest

/-- The fixed ordered command table of `pushToRepo` (lines 239-251 of the Go
source), parameterised by the remote URL. -/
def gitCommands (repoURL : String) : List (String × List String) :=
  [("git", ["init"]),
   ("git", ["config", "user.email", "github-actions[bot]@users.noreply.github.com"]),
   ("git", ["config", "user.name", "github-actions[bot]"]),
   ("git", ["remote", "add", "origin", repoURL]),
   ("git", ["add", "-A"]),
   ("git", ["commit", "-m", "Initial commit from jupiter-registry"]),
   ("git", ["branch", "-M", "main"]),
   ("git", ["push", "-u", "origin", "main", "--force"])]

/-- The command loop at the end of `pushToRepo`: each command runs via
`runCommandInDir`; the first failure aborts the rest and is wrapped into the
error message naming the command and its arguments. -/
def runSeq (w : World) (dir : String) : List (String × List String) → Except String Unit × List Event
  | [] => (Except.ok (), [])
  | (n, a) :: rest =>
    match w.run (some dir) n a with
    | some e =>
      (Except.error ("command '" ++ n ++ " " ++ goStringsJoin " " a ++ "' failed: " ++ e),
       [⟨some dir, n, a⟩])
    | none =>
      ((runSeq w dir rest).1, ⟨some dir, n, a⟩ :: (runSeq w dir rest).2)

/-- `pushToRepo`: requires the generated folder (named after the app) to exist
— only `os.IsNotExist` aborts — then resolves the token, builds the remote
URL, and runs the fixed git command sequence inside the folder. -/
def pushToRepo (w : World) (appName : String) : Except String Unit × List Event :=
  if w.stat appName = StatRes.notExist then
    (Except.error ("generated folder not found: " ++ appName), [])
  else
    runSeq w appName (gitCommands (buildRepoURL w.env appName))

/-- Arguments of the `go install` fallback in `getUranusBinary`. -/
def installArgs : List String :=
  ["install", "github.com/tqhuy-dev/xgen-uranus@latest"]

/-- Binary name computed from the current platform: `uranus-<os>-<arch>`. -/
def uranusBinaryName (w : World) : String :=
  "uranus-" ++ w.goos ++ "-" ++ w.goarch

/-- Location of the local binary: `filepath.Join("dist", binaryName)`. -/
def uranusBinaryPath (w : World) : String :=
  join2 "dist" (uranusBinaryName w)

/-- `getUranusBinary`: when `os.Stat` on the local path succeeds the binary is
chmod-ed and returned (chmod failure is an error); otherwise one `go install`
is attempted, returning the bare name `uranus` on success and a wrapped
install error on failure. -/
def getUranusBinary (w : World) : Except String String × List Event :=
  if w.stat (uranusBinaryPath w) = StatRes.ok then
    match w.chmod (uranusBinaryPath w) with
    | some e => (Except.error ("failed to chmod binary: " ++ e), [])
    | none => (Except.ok (uranusBinaryPath w), [])
  else
    match w.run none "go" installArgs with
    | some e =>
      (Except.error ("failed to install uranus CLI: " ++ e), [⟨none, "go", installArgs⟩])
    | none => (Except.ok "uranus", [⟨none, "go", installArgs⟩])

/-- Arguments the generator binary is invoked with in `processGolang`. -/
def generateArgs (appName : String) : List String :=
  ["generate", "app", "--name", appName, "--module",
   "github.com/tqhuy-dev/" ++ appName, "--skip_init=true"]

/-- Arguments of the `gh repo create` invocation. -/
def ghCreateArgs (repoName : String) : List String :=
  ["repo", "create", "tqhuy-dev/" ++ repoName, "--private", "--confirm"]

/-- `createGitHubRepo`: runs `gh repo create`; a failure only prints a warning
(the repo might already exist) — the function returns nil either way. -/
def createGitHubRepo (w : World) (repoName : String) : Except String Unit × List Event :=
  match w.run none "gh" (ghCreateArgs repoName) with
  | some _ => (Except.ok (), [⟨none, "gh", ghCreateArgs repoName⟩])
  | none => (Except.ok (), [⟨none, "gh", ghCreateArgs repoName⟩])

/-- `processGolang`: resolve the binary, generate the app, create the GitHub
repository, push — each failure wrapped with the step that failed. -/
def processGolang (w : World) (dto : GeneratorSourceDto) : Except String Unit × List Event :=
  match getUranusBinary w with
  | (Except.error e, tr) => (Except.error ("failed to get uranus binary: " ++ e), tr)
  | (Except.ok uranusBin, tr) =>
    match w.run none uranusBin (generateArgs dto.AppName) with
    | some e =>
      (Except.error ("failed to generate app: " ++ e),
       tr ++ [⟨none, uranusBin, generateArgs dto.AppName⟩])
    | none =>
      match createGitHubRepo w dto.AppName with
      | (Except.error e, tr2) =>
        (Except.error ("failed to create GitHub repo: " ++ e),
         tr ++ [⟨none, uranusBin, generateArgs dto.AppName⟩] ++ tr2)
      | (Except.ok _, tr2) =>
        match pushToRepo w dto.AppName with
        | (Except.error e, tr3) =>
          (Except.error ("failed to push to repo: " ++ e),
           tr ++ [⟨none, uranusBin, generateArgs dto.AppName⟩] ++ tr2 ++ tr3)
        | (Except.ok _, tr3) =>
          (Except.ok (), tr ++ [⟨none, uranusBin, generateArgs dto.AppName⟩] ++ tr2 ++ tr3)

/-- `processNodeJS`: unimplemented — prints a warning and returns nil without
invoking any subprocess. -/
def processNodeJS (_w : World) (_dto : GeneratorSourceDto) : Except String Unit × List Event :=
  (Except.ok (), [])

/-- The language switch of `processService` (case-sensitive exact match). -/
def processService (w : World) (dto : GeneratorSourceDto) : Except String Unit × List Event :=
  if dto.ProgrammingLanguage = "golang" then processGolang w dto
  else if dto.ProgrammingLanguage = "nodejs" then processNodeJS w dto
  else (Except.error ("unsupported programming language: " ++ dto.ProgrammingLanguage), [])

/-- The descriptor file path: `filepath.Join(servicePath, "source.yml")`. -/
def sourceFilePath (servicePath : String) : String :=
  join2 servicePath "source.yml"

/-- The defensive filename check in `main`: taken when the base name of the
joined path differs from `source.yml`. -/
def filenameCheckFails (servicePath : String) : Bool :=
  decide (goBase (sourceFilePath servicePath) ≠ "source.yml")

/-- Exit code of `main` on a given `os.Args` (element 0 is the program name):
1 on missing argument, 0 on the defensive filename check, 1 on read / parse /
processing failure, and 0 on success. -/
def mainRun (w : World) (osArgs : List String) : Nat :=
  match osArgs with
  | _ :: servicePath :: _ =>
    if filenameCheckFails servicePath then 0
    else
      match w.readFile (sourceFilePath servicePath) with
      | Except.error _ => 1
      | Except.ok fileData =>
        match w.parseYaml fileData with
        | Except.error _ => 1
        | Except.ok config =>
          match (processService w (toDto config)).1 with
          | Except.error _ => 1
          | Except.ok _ => 0
  | _ => 1

/- Concrete configurations and worlds used by the witness theorems. -/

/-- A descriptor whose language is neither of the two recognized values. -/
def cfgPython : SourceConfig :=
  { SourceID := "id-1"
    Name := "sample-svc"
    Members := ["alice", "bob"]
    Metadata := { ProgrammingLanguage := "python", Framework := "", Module := "" } }

/-- A golang descriptor. -/
def cfgGo : SourceConfig :=
  { SourceID := "id-2"
    Name := "sample-svc"
    Members := ["alice"]
    Metadata := { ProgrammingLanguage := "golang", Framework := "fiber", Module := "m" } }

/-- A world in which every external operation succeeds and the parsed
descriptor targets an unsupported language. -/
def wPython : World :=
  { goos := "linux"
    goarch := "amd64"
    stat := fun _ => StatRes.ok
    chmod := fun _ => none
    run := fun _ _ _ => none
    env := fun _ => none
    readFile := fun _ => Except.ok "yaml"
    parseYaml := fun _ => Except.ok cfgPython }

/-- A world in which every external operation succeeds and the parsed
descriptor targets golang. -/
def wGo : World :=
  { goos := "linux"
    goarch := "amd64"
    stat := fun _ => StatRes.ok
    chmod := fun _ => none
    run := fun _ _ _ => none
    env := fun _ => none
    readFile := fun _ => Except.ok "yaml"
    parseYaml := fun _ => Except.ok cfgGo }

/-- A world where `git add -A` fails and everything else succeeds. -/
def wGitAddFails : World :=
  { wGo with run := fun _ n a => if n = "git" ∧ a = ["add", "-A"] then some "exit status 128" else none }

/-- A world where no stat ever succeeds (local binary absent, folder absent)
and the `go install` fallback fails. -/
def wNoBinInstallFails : World :=
  { wGo with
    stat := fun _ => StatRes.notExist
    run := fun _ n a => if n = "go" ∧ a = installArgs then some "exit status 1" else none }

/-- A world where stat reports an error other than non-existence. -/
def wStatOther : World :=
  { wGo with stat := fun _ => StatRes.otherErr }

/-- Environment with `GH_TOKEN` set to the empty string and `GITHUB_TOKEN`
set to a real token. -/
def envEmptyGH : String → Option String :=
  fun k => if k = "GH_TOKEN" then some "" else if k = "GITHUB_TOKEN" then some "tok2" else none

/-- Environment with `GH_TOKEN` set to the empty string and `GITHUB_TOKEN`
unset. -/
def envEmptyGHOnly : String → Option String :=
  fun k => if k = "GH_TOKEN" then some "" else none

/-- Environment with a non-empty `GH_TOKEN` and a different `GITHUB_TOKEN`. -/
def envBothTokens : String → Option String :=
  fun k => if k = "GH_TOKEN" then some "tok1" else if k = "GITHUB_TOKEN" then some "tok2" else none

/-- Environment with only a non-empty `GH_TOKEN`. -/
def envGHOnly : String → Option String :=
  fun k => if k = "GH_TOKEN" then some "tok1" else none

/- Helper lemmas about the path model. -/

theorem strData_mk (l : List Char) : (String.mk l).data = l := rfl

theorem splitSlash_ne_nil (a : List Char) : splitSlash a ≠ [] := by
  cases a with
  | nil => simp [splitSlash]
  | cons c rest =>
    simp only [splitSlash]
    split
    · simp
    · split <;> simp

theorem splitSlash_append (a b : List Char) :
    splitSlash (a ++ '/' :: b) = splitSlash a ++ splitSlash b := by
  induction a with
  | nil => simp [splitSlash]
  | cons c rest ih =>
    by_cases hc : c = '/'
    · subst hc
      simp [splitSlash, ih]
    · have hex : ∃ s ss, splitSlash rest = s :: ss := by
        cases hh : splitSlash rest with
        | nil => exact absurd hh (splitSlash_ne_nil rest)
        | cons s ss => exact ⟨s, ss, rfl⟩
      obtain ⟨s, ss, h⟩ := hex
      simp [splitSlash, if_neg hc, ih, h]

theorem stepStack_sourceYml (rooted : Bool) (st : List (List Char)) :
    stepStack rooted st "source.yml".data = "source.yml".data :: st := by
  unfold stepStack
  rw [if_neg (by decide), if_neg (by decide)]

theorem joinChars_append_cons (x : List Char) (l : List (List Char)) (wrd : List Char) :
    joinChars '/' ((x :: l) ++ [wrd]) = x ++ '/' :: joinChars '/' (l ++ [wrd]) := by
  cases l with
  | nil => rfl
  | cons y ys => rfl

theorem joinChars_last (l : List (List Char)) (wrd : List Char) :
    joinChars '/' (l ++ [wrd]) = wrd ∨
      ∃ T0, joinChars '/' (l ++ [wrd]) = T0 ++ '/' :: wrd := by
  induction l with
  | nil => exact Or.inl rfl
  | cons x xs ih =>
    right
    rw [joinChars_append_cons]
    rcases ih with h | ⟨T0, h⟩
    · exact ⟨x, by rw [h]⟩
    · exact ⟨x ++ '/' :: T0, by rw [h]; simp⟩

theorem takeWhile_append_all {α : Type} (p : α → Bool) (a b : List α)
    (h : ∀ c ∈ a, p c = true) :
    (a ++ b).takeWhile p = a ++ b.takeWhile p := by
  induction a with
  | nil => simp
  | cons x xs ih =>
    simp only [List.cons_append, List.takeWhile_cons]
    rw [if_pos (h x (by simp)), ih (fun c hc => h c (by simp [hc]))]

theorem baseStripped_ends_sourceYml (T : List Char)
    (h : T = [] ∨ ∃ T0, T = T0 ++ ['/']) :
    baseStripped (T ++ "source.yml".data) = "source.yml".data := by
  unfold baseStripped
  rw [List.reverse_append]
  have hdrop : (("source.yml".data).reverse ++ T.reverse).dropWhile (fun c => c == '/') =
      ("source.yml".data).reverse ++ T.reverse := by
    rw [show ("source.yml".data).reverse ++ T.reverse = 'l' :: ("my.ecruos".data ++ T.reverse) from by
      rw [show ("source.yml".data).reverse = 'l' :: "my.ecruos".data from by decide]
      rfl]
    rw [List.dropWhile_cons, if_neg (by decide)]
  rw [hdrop]
  rw [takeWhile_append_all _ _ _ (by decide)]
  rcases h with h | ⟨T0, h⟩
  · subst h
    simp only [List.reverse_nil, List.takeWhile_nil, List.append_nil, List.reverse_reverse]
  · subst h
    rw [List.reverse_append T0 ['/']]
    rw [show (['/'] : List Char).reverse ++ T0.reverse = '/' :: T0.reverse from rfl]
    rw [List.takeWhile_cons, if_neg (by decide), List.append_nil, List.reverse_reverse]

theorem baseChars_ends_sourceYml (T : List Char)
    (h : T = [] ∨ ∃ T0, T = T0 ++ ['/']) :
    baseChars (T ++ "source.yml".data) = "source.yml".data := by
  have hne : T ++ "source.yml".data ≠ [] := by
    intro hh
    exact absurd (List.append_eq_nil.mp hh).2 (by decide)
  unfold baseChars
  rw [if_neg hne, baseStripped_ends_sourceYml T h, if_neg (by decide)]

theorem cleanCore_src (r : Bool) (d : List Char) :
    cleanCore r (d ++ '/' :: "source.yml".data) = "source.yml".data ∨
      ∃ T0, cleanCore r (d ++ '/' :: "source.yml".data) = T0 ++ '/' :: "source.yml".data := by
  unfold cleanCore cleanStack
  rw [splitSlash_append]
  rw [show splitSlash "source.yml".data = ["source.yml".data] from by decide]
  rw [List.foldl_append]
  rw [show List.foldl (stepStack r) (List.foldl (stepStack r) [] (splitSlash d))
        ["source.yml".data] =
      stepStack r (List.foldl (stepStack r) [] (splitSlash d)) "source.yml".data from rfl]
  rw [stepStack_sourceYml, List.reverse_cons]
  exact joinChars_last _ _

theorem cleanChars_src (d : List Char) :
    ∃ T, cleanChars (d ++ '/' :: "source.yml".data) = T ++ "source.yml".data ∧
      (T = [] ∨ ∃ T0, T = T0 ++ ['/']) := by
  have hne : d ++ '/' :: "source.yml".data ≠ [] := by simp
  unfold cleanChars
  rw [if_neg hne]
  cases hro : isRooted (d ++ '/' :: "source.yml".data) with
  | true =>
    rw [if_pos rfl]
    rcases cleanCore_src true d with hout | ⟨T0, hout⟩
    · rw [hout, if_neg (by decide)]
      exact ⟨['/'], rfl, Or.inr ⟨[], rfl⟩⟩
    · rw [hout, if_neg (by simp)]
      exact ⟨'/' :: T0 ++ ['/'], by simp, Or.inr ⟨'/' :: T0, rfl⟩⟩
  | false =>
    rw [if_neg (by simp)]
    rcases cleanCore_src false d with hout | ⟨T0, hout⟩
    · rw [hout, if_neg (by decide)]
      exact ⟨[], rfl, Or.inl rfl⟩
    · rw [hout, if_neg (by simp)]
      exact ⟨T0 ++ ['/'], by simp, Or.inr ⟨T0, rfl⟩⟩

theorem base_join_sourceYml (sp : String) :
    goBase (join2 sp "source.yml") = "source.yml" := by
  by_cases hsp : sp = ""
  · subst hsp
    decide
  · unfold join2
    rw [if_neg hsp]
    unfold clean goBase
    have hdata : (sp ++ "/" ++ "source.yml").data = sp.data ++ '/' :: "source.yml".data := by
      rw [String.data_append, String.data_append, List.append_assoc]
      congr 1
    rw [hdata, strData_mk]
    obtain ⟨T, hT, hTend⟩ := cleanChars_src sp.data
    rw [hT, baseChars_ends_sourceYml T hTend]

theorem filenameCheckFails_false (sp : String) : filenameCheckFails sp = false := by
  unfold filenameCheckFails sourceFilePath
  rw [base_join_sourceYml]
  decide

/- Helper lemmas about the pipeline. -/

theorem runSeq_all_ok (w : World) (dir : String) (cmds : List (String × List String))
    (h : ∀ c ∈ cmds, w.run (some dir) c.1 c.2 = none) :
    runSeq w dir cmds = (Except.ok (), cmds.map (fun c => ⟨some dir, c.1, c.2⟩)) := by
  induction cmds with
  | nil => rfl
  | cons c rest ih =>
    obtain ⟨n, a⟩ := c
    simp only [runSeq]
    rw [h (n, a) (by simp)]
    rw [ih (fun c' hc => h c' (by simp [hc]))]
    simp

theorem runSeq_first_fail (w : World) (dir : String) (pre : List (String × List String)) :
    ∀ (c : String × List String) (post : List (String × List String)) (e : String),
      (∀ c' ∈ pre, w.run (some dir) c'.1 c'.2 = none) →
      w.run (some dir) c.1 c.2 = some e →
      runSeq w dir (pre ++ c :: post) =
        (Except.error ("command '" ++ c.1 ++ " " ++ goStringsJoin " " c.2 ++ "' failed: " ++ e),
         (pre ++ [c]).map (fun c' => ⟨some dir, c'.1, c'.2⟩)) := by
  induction pre with
  | nil =>
    intro c post e _ hc
    obtain ⟨n, a⟩ := c
    simp only [List.nil_append, runSeq]
    rw [hc]
    simp
  | cons p ps ih =>
    intro c post e hpre hc
    obtain ⟨n, a⟩ := p
    rw [List.cons_append]
    simp only [runSeq]
    rw [hpre (n, a) (by simp), ih c post e (fun x hx => hpre x (by simp [hx])) hc]
    simp

theorem createGitHubRepo_eq (w : World) (repoName : String) :
    createGitHubRepo w repoName = (Except.ok (), [⟨none, "gh", ghCreateArgs repoName⟩]) := by
  unfold createGitHubRepo
  cases w.run none "gh" (ghCreateArgs repoName) <;> rfl

/- Claim theorems. -/

/-- C1: for every parsed SourceConfig, the derived DTO is a pure projection:
AppName equals the config's name, ProgrammingLanguage / Framework / Module
equal the corresponding metadata fields, Members equals the config's member
sequence with order preserved exactly, and the source_id field is dropped
(the DTO type has no such field); no other transformation is applied. -/
theorem c1_dto_pure_projection (config : SourceConfig) :
    (toDto config).AppName = config.Name ∧
    (toDto config).ProgrammingLanguage = config.Metadata.ProgrammingLanguage ∧
    (toDto config).Framework = config.Metadata.Framework ∧
    (toDto config).Module = config.Metadata.Module ∧
    (toDto config).Members = config.Members ∧
    toDto config =
      { AppName := config.Name
        ProgrammingLanguage := config.Metadata.ProgrammingLanguage
        Framework := config.Metadata.Framework
        Module := config.Metadata.Module
        Members := config.Members } :=
  ⟨rfl, rfl, rfl, rfl, rfl, rfl⟩

/-- C2: for every descriptor whose ProgrammingLanguage is neither "golang"
nor "nodejs" (case-sensitive exact match), dispatch returns an error whose
message contains the offending language string, and the run terminates with
exit status 1. -/
theorem c2_unsupported_language_fails (w : World) (prog servicePath fileData : String)
    (rest : List String) (config : SourceConfig)
    (h1 : config.Metadata.ProgrammingLanguage ≠ "golang")
    (h2 : config.Metadata.ProgrammingLanguage ≠ "nodejs")
    (hread : w.readFile (sourceFilePath servicePath) = Except.ok fileData)
    (hparse : w.parseYaml fileData = Except.ok config) :
    processService w (toDto config) =
      (Except.error ("unsupported programming language: " ++
        config.Metadata.ProgrammingLanguage), []) ∧
    (∃ pre, "unsupported programming language: " ++ config.Metadata.ProgrammingLanguage =
      pre ++ config.Metadata.ProgrammingLanguage) ∧
    mainRun w (prog :: servicePath :: rest) = 1 := by
  have hps : processService w (toDto config) =
      (Except.error ("unsupported programming language: " ++
        config.Metadata.ProgrammingLanguage), []) := by
    have h1' : (toDto config).ProgrammingLanguage ≠ "golang" := h1
    have h2' : (toDto config).ProgrammingLanguage ≠ "nodejs" := h2
    unfold processService
    rw [if_neg h1', if_neg h2']
    rfl
  refine ⟨hps, ⟨"unsupported programming language: ", rfl⟩, ?_⟩
  simp [mainRun, filenameCheckFails_false, hread, hparse, hps]

/-- C2 witness: a descriptor with language "python" in a world where reading
and parsing succeed. -/
theorem c2_unsupported_language_fails_witness :
    processService wPython (toDto cfgPython) =
      (Except.error ("unsupported programming language: " ++
        cfgPython.Metadata.ProgrammingLanguage), []) ∧
    (∃ pre, "unsupported programming language: " ++ cfgPython.Metadata.ProgrammingLanguage =
      pre ++ cfgPython.Metadata.ProgrammingLanguage) ∧
    mainRun wPython ["generate_source", "svc"] = 1 :=
  c2_unsupported_language_fails wPython "generate_source" "svc" "yaml" [] cfgPython
    (by decide) (by decide) rfl rfl

/-- C6: if the generated output directory (named exactly as the application
name) does not exist when the push step starts, the push step fails with the
folder-missing error and no version-control command is executed (empty
trace). -/
theorem c6_missing_generated_folder (w : World) (appName : String)
    (h : w.stat appName = StatRes.notExist) :
    pushToRepo w appName = (Except.error ("generated folder not found: " ++ appName), []) := by
  unfold pushToRepo
  rw [if_pos h]

/-- C6 witness: a world where the stat on the generated folder reports
non-existence. -/
theorem c6_missing_generated_folder_witness :
    pushToRepo wNoBinInstallFails "sample-svc" =
      (Except.error ("generated folder not found: " ++ "sample-svc"), []) :=
  c6_missing_generated_folder wNoBinInstallFails "sample-svc" rfl

/-- C8 counterexample: invoked with zero path arguments the program exits
with status 1, not 0, refuting the claimed exit status. -/
theorem c8_zero_args_exit_counterexample :
    mainRun wGo ["generate_source"] ≠ 0 ∧ mainRun wGo ["generate_source"] = 1 :=
  ⟨by decide, rfl⟩

/-- C8 (amended): when the program is invoked with zero path arguments, it
prints an early usage diagnostic and exits with status 1. -/
theorem c8_zero_args_exit_one (w : World) (osArgs : List String)
    (h : osArgs.length < 2) : mainRun w osArgs = 1 := by
  cases osArgs with
  | nil => rfl
  | cons a rest =>
    cases rest with
    | nil => rfl
    | cons b rest2 =>
      simp only [List.length_cons] at h
      omega

/-- C8 witness: the one-element argument vector (program name only). -/
theorem c8_zero_args_exit_one_witness : mainRun wGo ["generate_source"] = 1 :=
  c8_zero_args_exit_one wGo ["generate_source"] (by decide)

/-- C9: for every input directory path, the base name of the path obtained by
joining the directory with the fixed descriptor filename equals "source.yml",
so the defensive filename-check branch is never taken. -/
theorem c9_filename_check_unreachable (servicePath : String) :
    goBase (sourceFilePath servicePath) = "source.yml" ∧
    filenameCheckFails servicePath = false :=
  ⟨base_join_sourceYml servicePath, filenameCheckFails_false servicePath⟩

/-- C10: a stat failure other than non-existence does not trigger the
folder-missing error: the push step proceeds to execute the version-control
command sequence (the first git command is invoked). -/
theorem c10_stat_other_error_proceeds (w : World) (appName : String)
    (h : w.stat appName = StatRes.otherErr) :
    pushToRepo w appName =
      runSeq w appName (gitCommands (buildRepoURL w.env appName)) ∧
    (pushToRepo w appName).2.head? = some ⟨some appName, "git", ["init"]⟩ := by
  have hne : w.stat appName ≠ StatRes.notExist := by
    rw [h]
    decide
  have hmain : pushToRepo w appName =
      runSeq w appName (gitCommands (buildRepoURL w.env appName)) := by
    unfold pushToRepo
    rw [if_neg hne]
  refine ⟨hmain, ?_⟩
  rw [hmain]
  simp only [gitCommands, runSeq]
  cases hr : w.run (some appName) "git" ["init"] <;> simp [hr]

/-- C10 witness: a world whose stat always reports a non-not-exist error. -/
theorem c10_stat_other_error_proceeds_witness :
    pushToRepo wStatOther "sample-svc" =
      runSeq wStatOther "sample-svc" (gitCommands (buildRepoURL wStatOther.env "sample-svc")) ∧
    (pushToRepo wStatOther "sample-svc").2.head? =
      some ⟨some "sample-svc", "git", ["init"]⟩ :=
  c10_stat_other_error_proceeds wStatOther "sample-svc" rfl

/-- C3: with the generated directory present, the push step runs exactly the
fixed ordered git command sequence inside that directory: when every command
succeeds the trace is the full command table in order, and when a command
fails the remaining commands are not executed and the step fails with an
error naming the failing command and its arguments. -/
theorem c3_push_runs_fixed_git_sequence (w : World) (appName : String)
    (hstat : w.stat appName ≠ StatRes.notExist) :
    ((∀ c ∈ gitCommands (buildRepoURL w.env appName),
        w.run (some appName) c.1 c.2 = none) →
      pushToRepo w appName =
        (Except.ok (),
         (gitCommands (buildRepoURL w.env appName)).map
           (fun c => ⟨some appName, c.1, c.2⟩))) ∧
    (∀ pre c post e,
      gitCommands (buildRepoURL w.env appName) = pre ++ c :: post →
      (∀ c' ∈ pre, w.run (some appName) c'.1 c'.2 = none) →
      w.run (some appName) c.1 c.2 = some e →
      pushToRepo w appName =
        (Except.error ("command '" ++ c.1 ++ " " ++ goStringsJoin " " c.2 ++ "' failed: " ++ e),
         (pre ++ [c]).map (fun c' => ⟨some appName, c'.1, c'.2⟩))) := by
  constructor
  · intro hall
    unfold pushToRepo
    rw [if_neg hstat]
    exact runSeq_all_ok w appName _ hall
  · intro pre c post e hsplit hpre hc
    unfold pushToRepo
    rw [if_neg hstat, hsplit]
    exact runSeq_first_fail w appName pre c post e hpre hc

/-- C3 witness: in a world where every git command succeeds the full table is
executed in order, and in a world where `git add -A` fails the trace stops at
the failing command and the error names it. -/
theorem c3_push_runs_fixed_git_sequence_witness :
    pushToRepo wGo "sample-svc" =
      (Except.ok (),
       (gitCommands (buildRepoURL wGo.env "sample-svc")).map
         (fun c => ⟨some "sample-svc", c.1, c.2⟩)) ∧
    pushToRepo wGitAddFails "sample-svc" =
      (Except.error "command 'git add -A' failed: exit status 128",
       [⟨some "sample-svc", "git", ["init"]⟩,
        ⟨some "sample-svc", "git",
          ["config", "user.email", "github-actions[bot]@users.noreply.github.com"]⟩,
        ⟨some "sample-svc", "git", ["config", "user.name", "github-actions[bot]"]⟩,
        ⟨some "sample-svc", "git",
          ["remote", "add", "origin", "https://github.com/tqhuy-dev/sample-svc.git"]⟩,
        ⟨some "sample-svc", "git", ["add", "-A"]⟩]) :=
  ⟨(c3_push_runs_fixed_git_sequence wGo "sample-svc" (by decide)).1 (by decide),
   (c3_push_runs_fixed_git_sequence wGitAddFails "sample-svc" (by decide)).2
     [("git", ["init"]),
      ("git", ["config", "user.email", "github-actions[bot]@users.noreply.github.com"]),
      ("git", ["config", "user.name", "github-actions[bot]"]),
      ("git", ["remote", "add", "origin", "https://github.com/tqhuy-dev/sample-svc.git"])]
     ("git", ["add", "-A"])
     [("git", ["commit", "-m", "Initial commit from jupiter-registry"]),
      ("git", ["branch", "-M", "main"]),
      ("git", ["push", "-u", "origin", "main", "--force"])]
     "exit status 128" (by decide) (by decide) (by decide)⟩

/-- C4: binary resolution computes the name uranus-os-arch and checks the
fixed dist directory: when stat succeeds no remote install is attempted (the
trace is empty) and, when the chmod succeeds, the local path is returned;
when stat does not succeed, exactly one `go install` invocation appears in
the trace, a failing install yields the wrapped install error, and a
successful install yields the bare binary name. -/
theorem c4_binary_resolution (w : World) :
    uranusBinaryName w = "uranus-" ++ w.goos ++ "-" ++ w.goarch ∧
    (w.stat (uranusBinaryPath w) = StatRes.ok →
      (getUranusBinary w).2 = [] ∧
      (w.chmod (uranusBinaryPath w) = none →
        getUranusBinary w = (Except.ok (uranusBinaryPath w), []))) ∧
    (w.stat (uranusBinaryPath w) ≠ StatRes.ok →
      (getUranusBinary w).2 = [⟨none, "go", installArgs⟩] ∧
      (∀ e, w.run none "go" installArgs = some e →
        (getUranusBinary w).1 = Except.error ("failed to install uranus CLI: " ++ e)) ∧
      (w.run none "go" installArgs = none →
        (getUranusBinary w).1 = Except.ok "uranus")) := by
  refine ⟨rfl, ?_, ?_⟩
  · intro hstat
    constructor
    · unfold getUranusBinary
      rw [if_pos hstat]
      cases hch : w.chmod (uranusBinaryPath w) <;> simp [hch]
    · intro hch
      unfold getUranusBinary
      rw [if_pos hstat, hch]
  · intro hstat
    refine ⟨?_, ?_, ?_⟩
    · unfold getUranusBinary
      rw [if_neg hstat]
      cases hr : w.run none "go" installArgs <;> simp [hr]
    · intro e he
      unfold getUranusBinary
      rw [if_neg hstat, he]
    · intro hr
      unfold getUranusBinary
      rw [if_neg hstat, hr]

/-- C4 witness: with the binary present locally it is returned with an empty
trace; with it absent and the install failing, the trace holds exactly the
one `go install` invocation and the wrapped error is returned. -/
theorem c4_binary_resolution_witness :
    getUranusBinary wGo = (Except.ok (uranusBinaryPath wGo), []) ∧
    (getUranusBinary wNoBinInstallFails).2 = [⟨none, "go", installArgs⟩] ∧
    (getUranusBinary wNoBinInstallFails).1 =
      Except.error ("failed to install uranus CLI: " ++ "exit status 1") :=
  ⟨((c4_binary_resolution wGo).2.1 rfl).2 rfl,
   ((c4_binary_resolution wNoBinInstallFails).2.2 (by decide)).1,
   ((c4_binary_resolution wNoBinInstallFails).2.2 (by decide)).2.1
     "exit status 1" (by decide)⟩

/-- C5: the repository-creation step never aborts the pipeline — its result is
nil for every outcome of the `gh` invocation, and when resolution and
generation succeed the pipeline's result and trace are exactly those of the
push step appended after the creation event, independent of the `gh` outcome;
every other step's failure is fatal (binary resolution, generation, push). -/
theorem c5_repo_creation_nonfatal (w : World) (dto : GeneratorSourceDto) :
    (∀ repoName, (createGitHubRepo w repoName).1 = Except.ok ()) ∧
    (∀ bin tr, getUranusBinary w = (Except.ok bin, tr) →
      w.run none bin (generateArgs dto.AppName) = none →
      processGolang w dto =
        ((match (pushToRepo w dto.AppName).1 with
          | Except.ok _ => Except.ok ()
          | Except.error e => Except.error ("failed to push to repo: " ++ e)),
         tr ++ [⟨none, bin, generateArgs dto.AppName⟩] ++
           [⟨none, "gh", ghCreateArgs dto.AppName⟩] ++ (pushToRepo w dto.AppName).2)) ∧
    (∀ e tr, getUranusBinary w = (Except.error e, tr) →
      (processGolang w dto).1 = Except.error ("failed to get uranus binary: " ++ e)) ∧
    (∀ bin tr e, getUranusBinary w = (Except.ok bin, tr) →
      w.run none bin (generateArgs dto.AppName) = some e →
      (processGolang w dto).1 = Except.error ("failed to generate app: " ++ e)) ∧
    (∀ bin tr e, getUranusBinary w = (Except.ok bin, tr) →
      w.run none bin (generateArgs dto.AppName) = none →
      (pushToRepo w dto.AppName).1 = Except.error e →
      (processGolang w dto).1 = Except.error ("failed to push to repo: " ++ e)) := by
  refine ⟨?_, ?_, ?_, ?_, ?_⟩
  · intro repoName
    rw [createGitHubRepo_eq]
  · intro bin tr hbin hgen
    rcases hp : pushToRepo w dto.AppName with ⟨res, tr3⟩
    cases res with
    | error e => simp [processGolang, hbin, hgen, createGitHubRepo_eq, hp]
    | ok u => simp [processGolang, hbin, hgen, createGitHubRepo_eq, hp]
  · intro e tr hbin
    simp [processGolang, hbin]
  · intro bin tr e hbin hgen
    simp [processGolang, hbin, hgen]
  · intro bin tr e hbin hgen hpush
    rcases hp : pushToRepo w dto.AppName with ⟨res, tr3⟩
    rw [hp] at hpush
    cases res with
    | error e2 =>
      simp only at hpush
      cases hpush
      simp [processGolang, hbin, hgen, createGitHubRepo_eq, hp]
    | ok u => exact absurd hpush (by simp)

/-- C5 witness: in a world where everything succeeds, repository creation
returns nil and the pipeline reaches and completes the push step. -/
theorem c5_repo_creation_nonfatal_witness :
    (createGitHubRepo wGo "sample-svc").1 = Except.ok () ∧
    processGolang wGo (toDto cfgGo) =
      ((match (pushToRepo wGo "sample-svc").1 with
        | Except.ok _ => Except.ok ()
        | Except.error e => Except.error ("failed to push to repo: " ++ e)),
       [] ++ [⟨none, uranusBinaryPath wGo, generateArgs "sample-svc"⟩] ++
         [⟨none, "gh", ghCreateArgs "sample-svc"⟩] ++ (pushToRepo wGo "sample-svc").2) :=
  ⟨(c5_repo_creation_nonfatal wGo (toDto cfgGo)).1 "sample-svc",
   (c5_repo_creation_nonfatal wGo (toDto cfgGo)).2.1 (uranusBinaryPath wGo) []
     rfl rfl⟩

/-- C7 counterexample: with GH_TOKEN set (present in the environment) in both
environments and equal, changing GITHUB_TOKEN changes the remote URL — so
GITHUB_TOKEN does have an effect while GH_TOKEN is set, refuting the claim as
stated (GH_TOKEN is set to the empty string). -/
theorem c7_gh_token_set_counterexample :
    (envEmptyGH "GH_TOKEN").isSome = true ∧
    (envEmptyGHOnly "GH_TOKEN").isSome = true ∧
    envEmptyGH "GH_TOKEN" = envEmptyGHOnly "GH_TOKEN" ∧
    buildRepoURL envEmptyGH "sample-svc" ≠ buildRepoURL envEmptyGHOnly "sample-svc" := by
  refine ⟨rfl, rfl, rfl, ?_⟩
  decide

/-- C7 (amended): the push step resolves the token by reading GH_TOKEN and,
only if that read is empty, GITHUB_TOKEN; a non-empty resolved token is
embedded in the remote URL and an empty one gives the unauthenticated URL —
so whenever GH_TOKEN reads as a non-empty value, no other variable
(in particular GITHUB_TOKEN) has any effect on the URL. -/
theorem c7_token_resolution_amended (env1 env2 : String → Option String) (appName : String) :
    (goGetenv env1 "GH_TOKEN" ≠ "" → resolveToken env1 = goGetenv env1 "GH_TOKEN") ∧
    (goGetenv env1 "GH_TOKEN" = "" → resolveToken env1 = goGetenv env1 "GITHUB_TOKEN") ∧
    (resolveToken env1 ≠ "" → buildRepoURL env1 appName =
      "https://x-access-token:" ++ resolveToken env1 ++
        "@github.com/tqhuy-dev/" ++ appName ++ ".git") ∧
    (resolveToken env1 = "" → buildRepoURL env1 appName =
      "https://github.com/tqhuy-dev/" ++ appName ++ ".git") ∧
    (goGetenv env1 "GH_TOKEN" = goGetenv env2 "GH_TOKEN" →
      goGetenv env1 "GH_TOKEN" ≠ "" →
      buildRepoURL env1 appName = buildRepoURL env2 appName) := by
  refine ⟨?_, ?_, ?_, ?_, ?_⟩
  · intro h
    unfold resolveToken
    rw [if_neg h]
  · intro h
    unfold resolveToken
    rw [if_pos h]
  · intro h
    unfold buildRepoURL
    rw [if_pos h]
  · intro h
    unfold buildRepoURL
    rw [if_neg (by simp [h])]
  · intro h12 hne
    have hne2 : goGetenv env2 "GH_TOKEN" ≠ "" := h12 ▸ hne
    have hr : resolveToken env1 = resolveToken env2 := by
      unfold resolveToken
      rw [if_neg hne, if_neg hne2, h12]
    unfold buildRepoURL
    rw [hr]

/-- C7 witness: with a non-empty GH_TOKEN, the resolved token is GH_TOKEN's
value, the URL embeds it, and an environment differing only in GITHUB_TOKEN
yields the same URL. -/
theorem c7_token_resolution_amended_witness :
    resolveToken envBothTokens = goGetenv envBothTokens "GH_TOKEN" ∧
    buildRepoURL envBothTokens "sample-svc" =
      "https://x-access-token:" ++ resolveToken envBothTokens ++
        "@github.com/tqhuy-dev/" ++ "sample-svc" ++ ".git" ∧
    buildRepoURL envBothTokens "sample-svc" = buildRepoURL envGHOnly "sample-svc" :=
  ⟨(c7_token_resolution_amended envBothTokens envGHOnly "sample-svc").1 (by decide),
   (c7_token_resolution_amended envBothTokens envGHOnly "sample-svc").2.2.1 (by decide),
   (c7_token_resolution_amended envBothTokens envGHOnly "sample-svc").2.2.2.2
     (by decide) (by decide)⟩
